import Mathlib

/-!
# serial-monitor: a verification development

A shallow embedding of the message pipeline and of the session controller of
`serial-monitor` (`main.go`, `utils/utils.go`, `utils/message.go`,
`gui/gui.go`), followed by theorems about it.

Conventions of the embedding

* A Go `string` or `[]byte` read from the device is a `List Byte` with
  `Byte = Fin 256`; flag values and key identifiers are Lean strings.
* `container/list.List` is a `List` whose head is `Front()` and whose last
  element is `Back()`.
* `float64`, `strconv.ParseFloat`, the `%f` verb of `fmt` and
  `time.Time.Format` are library code; they are the fields of `Env`.
* `log.Fatalf`, `log.Fatalln` and `panic` are `Except.error` results.
* The serial driver is a collaborator whose calls succeed; the calls made on
  it are recorded in order.
* Widget contents and rectangles are outputs that no transition reads back;
  of the widgets only their presence (non-nil pointer) is kept.
-/

namespace SerialMonitor

/-! ## Bytes and strings -/

/-- One byte of a Go string. -/
abbrev Byte := Fin 256

/-- Go string: an immutable sequence of bytes. -/
abbrev GoString := List Byte

/-- UTF-8 bytes of a string literal. -/
def goStr (s : String) : GoString :=
  s.toList.flatMap (fun c => (String.utf8EncodeChar c).map UInt8.val)

/-- Byte of the line feed `'\n'`. -/
def NL : Byte := 10

/-- Byte of the carriage return `'\r'`. -/
def CR : Byte := 13

/-- Byte of the blank `' '`. -/
def SP : Byte := 32

/-- Byte of `'-'`. -/
def DASH : Byte := 45

/-- Byte of the digit `'0'`, the padding of the `%04x` verb. -/
def ZERO : Byte := 48

/-- Digit table of `encoding/hex` (`hextable`) and of `fmt` (`ldigits`):
`0123456789abcdef`. -/
def hextable : List Byte :=
  [48, 49, 50, 51, 52, 53, 54, 55, 56, 57, 97, 98, 99, 100, 101, 102]

/-- Entry `hextable[d]`. -/
def hexChar (d : Nat) : Byte := hextable.getD d ZERO

/-- Digits of `n` in base `base`, most significant first, in front of `acc`
(the digit loop of `fmt`). -/
def fmtDigits (base : Nat) : Nat → Nat → GoString → GoString
  | 0, _, acc => acc
  | fuel + 1, n, acc =>
    if n / base = 0 then hexChar (n % base) :: acc
    else fmtDigits base fuel (n / base) (hexChar (n % base) :: acc)

/-- Verb `%d` of `fmt.Sprintf` on a non-negative integer. -/
def fmtD (n : Nat) : GoString := fmtDigits 10 (n + 1) n []

/-- Verb `%04x` of `fmt.Sprintf` on a non-negative integer: lower-case
hexadecimal, padded with zeros on the left up to width 4. -/
def fmt04x (n : Nat) : GoString :=
  let ds := fmtDigits 16 (n + 1) n []
  List.replicate (4 - ds.length) ZERO ++ ds

/-- Function `strings.TrimRight` for a cutset of ASCII bytes: the trailing
bytes that belong to the cutset are removed. -/
def TrimRight (s : GoString) (cutset : GoString) : GoString :=
  s.rdropWhile (fun b => decide (b ∈ cutset))

/-- The cutset `"\r\n"`. -/
def CRLF : GoString := [CR, NL]

/-- Function `strings.ToUpper` on an ASCII string (its byte-wise path): the
letters `a`-`z` are moved to `A`-`Z`. -/
def ToUpper (s : GoString) : GoString :=
  s.map (fun b => if 97 ≤ b.val ∧ b.val ≤ 122 then Fin.ofNat (b.val - 32) else b)

/-- Function `hex.EncodeToString`: two digits of `hextable` per byte,
`hextable[v>>4]` and `hextable[v&0x0f]`. -/
def EncodeToString (src : GoString) : GoString :=
  src.flatMap (fun v => [hexChar (v.val >>> 4), hexChar (v.val &&& 0x0f)])

/-- Function `strings.EqualFold` on ASCII text: equality up to the case of
the letters `A`-`Z`. The available modes `TEXT` and `PLOT` contain no letter
with a non-ASCII case-folding partner, so against them this is all of
`EqualFold`. -/
def EqualFold (s t : String) : Bool :=
  s.toList.map Char.toLower == t.toList.map Char.toLower

/-! ## utils/message.go -/

/-- Dynamic content of a message (`Content any`): the two types the type
switches of `utils.go` know, and every other dynamic type. -/
inductive Content (F : Type) where
  | text (s : GoString)
  | number (f : F)
  | other
  deriving DecidableEq, Repr

/-- Struct `Message` of `utils/message.go`; the timestamp is an abstract
instant. -/
structure Message (F : Type) where
  Timestamp : Nat
  Content : Content F
  deriving DecidableEq, Repr

/-- Function `NowMessage`, with `time.Now()` passed in as `now`. -/
def NowMessage {F : Type} (now : Nat) (msg : Content F) : Message F :=
  { Timestamp := now, Content := msg }

/-- Library operations on `float64` and `time.Time` used by `utils.go`. -/
structure Env (F : Type) where
  /-- The zero value of `float64` that `make([]float64, n)` fills in. -/
  zero : F
  /-- Call `strconv.ParseFloat(s, 64)`; `none` when `err != nil`. -/
  ParseFloat : GoString → Option F
  /-- Verb `%f` of `fmt.Sprintf`. -/
  formatFloat : F → GoString
  /-- Call `Timestamp.Format(TIME_FORMAT)`. -/
  formatTime : Nat → GoString

/-! ## utils/utils.go -/

/-- Function `splitHexLine`: the two offsets, two blanks, and the characters
of `hexLine` with a blank before every even position but the first. -/
def splitHexLine (hexLine : GoString) (lineNum : Nat) : GoString :=
  fmt04x (lineNum * 8) ++ [DASH] ++ fmt04x (lineNum * 8 + 7) ++ [SP, SP] ++
    hexLine.enum.flatMap (fun ir => if ir.1 ≠ 0 ∧ ir.1 % 2 = 0 then [SP, ir.2] else [ir.2])

/-- Function `toHexLines`. The line count `int(math.Ceil(float64(len) / 16.0))`
is the integer ceiling of `len / 16` (exact in `float64` for every length
below `2^53`). -/
def toHexLines (s : GoString) : List GoString :=
  let hexString := ToUpper (EncodeToString s)
  let linesCount := (hexString.length + 15) / 16
  (List.range linesCount).map (fun i =>
    let start := i * 16
    let stop := if (i + 1) * 16 > hexString.length then hexString.length else (i + 1) * 16
    let hexLine := (hexString.drop start).take (stop - start)
    splitHexLine hexLine i)

/-- The loop of `ListToSliceMsg`: `es` are the elements from the current one
towards the front (`e`, `e.Prev()`, ...), `i` the counter, `arr` the rows so far. -/
def ListToSliceMsg.loop {F : Type} (env : Env F) (maxLen : Nat) (printTime printInHex : Bool) :
    List (Message F) → Nat → List GoString → Except String (List GoString)
  | [], _, arr => .ok arr
  | msg :: es, i, arr =>
    if i < maxLen then
      let pfx : GoString :=
        if printTime then goStr "[" ++ env.formatTime msg.Timestamp ++ goStr "]:"
        else goStr "[" ++ fmtD (i + 1) ++ goStr "]:"
      match msg.Content with
      | .text s =>
        if printInHex then
          ListToSliceMsg.loop env maxLen printTime printInHex es (i + 1)
            (arr ++ ([pfx ++ [SP] ++ TrimRight s CRLF] ++ toHexLines s))
        else
          ListToSliceMsg.loop env maxLen printTime printInHex es (i + 1)
            (arr ++ [pfx ++ [SP] ++ TrimRight s CRLF])
      | .number f =>
        ListToSliceMsg.loop env maxLen printTime printInHex es (i + 1)
          (arr ++ [pfx ++ [SP] ++ env.formatFloat f])
      | .other => .error "Unknown msg type"
    else .ok arr

/-- Function `ListToSliceMsg`: the walk starts at `l.Back()` and follows
`Prev()`, that is, it runs over the reversed list. -/
def ListToSliceMsg {F : Type} (env : Env F) (l : List (Message F)) (maxLen : Nat)
    (printTime printInHex : Bool) : Except String (List GoString) :=
  ListToSliceMsg.loop env maxLen printTime printInHex l.reverse 0 []

/-- The loop of `ListToSliceFloat`: `es` are the elements from the current one
towards the back (`e`, `e.Next()`, ...), `i` the write index, `arr` the array. -/
def ListToSliceFloat.loop {F : Type} (env : Env F) :
    List (Message F) → Int → List F → Except String (List F × Int)
  | [], i, arr => .ok (arr, i)
  | msg :: es, i, arr =>
    if i ≥ 0 then
      match msg.Content with
      | .number f => ListToSliceFloat.loop env es (i - 1) (arr.set i.toNat f)
      | .text s =>
        match env.ParseFloat (TrimRight s CRLF) with
        | some num => ListToSliceFloat.loop env es (i - 1) (arr.set i.toNat num)
        | none => ListToSliceFloat.loop env es (i + 1 - 1) arr
      | .other => .error "Unknown msg type"
    else .ok (arr, i)

/-- Function `ListToSliceFloat`: `arr[i+1:]` of the array the loop leaves. -/
def ListToSliceFloat {F : Type} (env : Env F) (l : List (Message F)) (maxLen : Nat) :
    Except String (List F) :=
  match ListToSliceFloat.loop env l ((maxLen : Int) - 1) (List.replicate maxLen env.zero) with
  | .ok (arr, i) => .ok (arr.drop (i + 1).toNat)
  | .error e => .error e

/-! ## main.go: constants and the message store -/

def MAX_MSG_CAPACITY : Nat := 10000
def MAX_POINT_CAPACITY : Nat := 200
def MSG_BUFF_SIZE : Nat := 1000

/-- One iteration of the `for msg := range msgBuff` loop of `handleMessages`,
as far as the store `messages` is concerned: `Remove(Back())` when
`messages.Len() > MAX_MSG_CAPACITY`, then `PushFront(msg)`. -/
def handleMessagesStep {F : Type} (messages : List (Message F)) (msg : Message F) :
    List (Message F) :=
  let messages := if messages.length > MAX_MSG_CAPACITY then messages.dropLast else messages
  msg :: messages

/-- The store after `handleMessages` has consumed the messages `msgs` (in
channel order) starting from the store `messages`. -/
def handleMessages {F : Type} (messages : List (Message F)) (msgs : List (Message F)) :
    List (Message F) :=
  msgs.foldl handleMessagesStep messages

/-- Function `convertMsgsToPoints` with the constant `MAX_POINT_CAPACITY` as
the parameter `maxPoints`; the result is the single series `points[0]`. -/
def convertMsgsToPointsCap {F : Type} (env : Env F) (maxPoints : Nat)
    (messages : List (Message F)) : Except String (List F) :=
  let pointsCount := if messages.length > maxPoints then maxPoints else messages.length
  ListToSliceFloat env messages pointsCount

/-- Function `convertMsgsToPoints`. -/
def convertMsgsToPoints {F : Type} (env : Env F) (messages : List (Message F)) :
    Except String (List (List F)) :=
  match convertMsgsToPointsCap env MAX_POINT_CAPACITY messages with
  | .ok points0 => .ok [points0]
  | .error e => .error e

/-- Function `updateMsgInbox`: the rows given to the list widget. -/
def updateMsgInbox {F : Type} (env : Env F) (messages : List (Message F))
    (printTime hexMode : Bool) : Except String (List GoString) :=
  ListToSliceMsg env messages messages.length printTime hexMode

/-! ## main.go: the line framer `readSerial` -/

/-- Function `bytes.IndexByte`: position of the first `c`. -/
def IndexByte : List Byte → Byte → Option Nat
  | [], _ => none
  | b :: bs, c => if b = c then some 0 else (IndexByte bs c).map (· + 1)

/-- Method `ReadString` of `bytes.Buffer` on the unread bytes `buf`: the
line, whether `err != nil`, and the unread bytes left. Without a delimiter the
whole content is returned together with `io.EOF` and the buffer is left empty. -/
def ReadString (buf : List Byte) (delim : Byte) : GoString × Bool × List Byte :=
  match IndexByte buf delim with
  | some i => (buf.take (i + 1), false, buf.drop (i + 1))
  | none => (buf, true, [])

/-- Two's-complement wrap of `int64` arithmetic. -/
def wrapInt64 (x : Int) : Int := (x + 2 ^ 63) % 2 ^ 64 - 2 ^ 63

/-- Variables of `readSerial`: the assembly buffer `buff` (its unread bytes)
and the global counter `readBytes`. -/
structure ReaderState where
  buff : List Byte
  readBytes : Int
  deriving DecidableEq, Repr

/-- State of `readSerial` when the goroutine starts. -/
def ReaderState.init : ReaderState := { buff := [], readBytes := 0 }

/-- One iteration of the loop of `readSerial` past its pause guard. `data` is
`temp_buff[:n]`, what `serialPort.Read` delivered (`n = 0` on a timeout); the
second component is the line sent to `msgBuff` (wrapped by `NowMessage`). -/
def readSerialStep (st : ReaderState) (data : List Byte) : ReaderState × Option GoString :=
  let n := data.length
  if n ≠ 0 then
    ({ buff := st.buff ++ data, readBytes := wrapInt64 (st.readBytes + (n : Int)) }, none)
  else if st.buff.length > 0 then
    match ReadString st.buff NL with
    | (line, true, rest) => ({ st with buff := rest ++ line }, none)
    | (line, false, rest) => ({ st with buff := rest }, some line)
  else (st, none)

/-- One iteration of the loop of `readSerial`, pause guard included: nothing
is read while `paused || serialPort == nil`. -/
def readSerialIter (paused portOpen : Bool) (st : ReaderState) (data : List Byte) :
    ReaderState × Option GoString :=
  if paused || !portOpen then (st, none) else readSerialStep st data

/-- The loop of `readSerial` over the successive results `reads` of
`serialPort.Read`: the final state and the lines sent to `msgBuff`, in order. -/
def readSerial (st : ReaderState) : List (List Byte) → ReaderState × List GoString
  | [] => (st, [])
  | data :: reads =>
    let r := readSerialStep st data
    let rs := readSerial r.1 reads
    (rs.1, r.2.toList ++ rs.2)

/-! ## gui/gui.go -/

/-- Constant `gui.Text`. -/
def Text : String := "TEXT"

/-- Constant `gui.Plot`. -/
def Plot : String := "PLOT"

/-- Function `GetAvailableModes`. -/
def GetAvailableModes : List String := [Text, Plot]

/-- Struct `MainGui`: for every widget pointer, whether it is non-nil. -/
structure MainGui where
  BaudParagraph : Bool
  DeviceParagraph : Bool
  ReadTimeoutParagraph : Bool
  LogsEnabledParagraph : Bool
  TimestampsEnabledParagraph : Bool
  HexModeParagraph : Bool
  WrittenDataParagraph : Bool
  ReadDataParagraph : Bool
  PauseParagraph : Bool
  FollowModeParagraph : Bool
  InboxList : Bool
  InboxPlot : Bool
  InputParagraph : Bool
  deriving DecidableEq, Repr

/-- Function `NewMainGui`: which widgets are built for `mode` and
`fullScreen`, or the panic on an unknown mode. -/
def NewMainGui (mode : String) (fullScreen : Bool) : Except String MainGui :=
  let config := !fullScreen
  let textConfig := !fullScreen && decide (mode = Text)
  if mode = Text then
    .ok { BaudParagraph := config, DeviceParagraph := config, ReadTimeoutParagraph := config,
          LogsEnabledParagraph := config, TimestampsEnabledParagraph := textConfig,
          HexModeParagraph := textConfig, WrittenDataParagraph := config,
          ReadDataParagraph := config, PauseParagraph := config,
          FollowModeParagraph := textConfig, InboxList := true, InboxPlot := false,
          InputParagraph := true }
  else if mode = Plot then
    .ok { BaudParagraph := config, DeviceParagraph := config, ReadTimeoutParagraph := config,
          LogsEnabledParagraph := config, TimestampsEnabledParagraph := textConfig,
          HexModeParagraph := textConfig, WrittenDataParagraph := config,
          ReadDataParagraph := config, PauseParagraph := config,
          FollowModeParagraph := textConfig, InboxList := false, InboxPlot := true,
          InputParagraph := true }
  else .error "panic: unknown gui mode"

/-! ## main.go: flags -/

/-- The flag variables of `main.go`. -/
structure Flags where
  baud : Int
  readTimeoutMillieconds : Int
  guiMode : String
  logsEnabled : Bool
  deriving DecidableEq, Repr

/-- Function `initFlags`: the default values. -/
def initFlags : Flags :=
  { baud := 9600, readTimeoutMillieconds := 10, guiMode := "TEXT", logsEnabled := false }

/-- The `for ... range gui.GetAvailableModes()` loop of `validateFlags`. -/
def validateFlags.loop (guiMode : String) : List String → Bool → Bool
  | [], validMode => validMode
  | availableMode :: modes, _ =>
    let validMode := EqualFold guiMode availableMode
    if validMode then validMode else validateFlags.loop guiMode modes validMode

/-- Function `validateFlags`: `log.Fatalln` or return. No flag is changed. -/
def validateFlags (f : Flags) : Except String Unit :=
  if f.baud < 0 then .error "baud cannot be negative"
  else if f.readTimeoutMillieconds < 0 then .error "read timeout seconds cannot be negative"
  else if !validateFlags.loop f.guiMode GetAvailableModes true then .error "invalid mode"
  else .ok ()

/-! ## main.go: the session controller -/

/-- Calls on the serial driver. -/
inductive DriverCall where
  | Open
  | SetReadTimeout
  | Drain
  | ResetInputBuffer
  | ResetOutputBuffer
  | Close
  | Write (data : GoString)
  deriving DecidableEq, Repr

/-- The global variables of `main.go` that the event loop owns, the bytes of
the local `input` buffer, and the calls made on the serial driver so far.
`serialPort` is `true` when the handle is non-nil. -/
structure Session (F : Type) where
  guiMode : String
  inputMode : Bool
  followMode : Bool
  paused : Bool
  fullScreen : Bool
  printTime : Bool
  hexMode : Bool
  serialPort : Bool
  writtenBytes : Int
  input : GoString
  messages : List (Message F)
  mainGui : Option MainGui
  driver : List DriverCall

/-- Function `closeSerial`. After the log line for a nil handle there is no
return: `serialPort.Drain()` is called on the nil handle and panics. -/
def closeSerial {F : Type} (s : Session F) : Except String (Session F) :=
  if !s.serialPort then .error "panic: nil pointer dereference in closeSerial"
  else .ok { s with driver := s.driver ++ [.Drain, .Close], serialPort := false }

/-- Function `openSerial`. -/
def openSerial {F : Type} (s : Session F) : Except String (Session F) :=
  if s.serialPort then .error "serial port hasn't been closed in order to be opened"
  else .ok { s with
    serialPort := true
    driver := s.driver ++ [.Open, .SetReadTimeout, .Drain, .ResetInputBuffer, .ResetOutputBuffer] }

/-- Function `pauseOrUnpause`. -/
def pauseOrUnpause {F : Type} (s : Session F) : Except String (Session F) :=
  if s.paused then
    if !s.serialPort then
      match openSerial s with
      | .ok s => .ok { s with paused := false }
      | .error e => .error e
    else .ok s
  else
    if s.serialPort then closeSerial { s with paused := true }
    else .ok s

/-- Function `createGui`. -/
def createGui {F : Type} (s : Session F) : Except String (Session F) :=
  match NewMainGui s.guiMode s.fullScreen with
  | .ok g => .ok { s with mainGui := some g }
  | .error e => .error e

/-- Function `restartGui`: `paused` is set, the gui is rebuilt, `paused` is
cleared. -/
def restartGui {F : Type} (s : Session F) : Except String (Session F) :=
  match createGui { s with paused := true } with
  | .ok s => .ok { s with paused := false }
  | .error e => .error e

/-- Function `zoomInOut`. -/
def zoomInOut {F : Type} (s : Session F) : Except String (Session F) :=
  restartGui { s with fullScreen := !s.fullScreen }

/-- Function `changeGuiMode`. -/
def changeGuiMode {F : Type} (s : Session F) : Except String (Session F) :=
  if s.guiMode = Text then restartGui { s with guiMode := Plot }
  else restartGui { s with guiMode := Text }

/-- Function `uiEventToChar`. -/
def uiEventToChar (eventId : String) : String :=
  if eventId = "<Space>" then " "
  else if eventId.utf8ByteSize > 1 then ""
  else eventId

/-- Result of handling one event in the loop of `main`. -/
inductive Step (F : Type) where
  /-- The loop waits for the next event. -/
  | next (s : Session F)
  /-- The `break` of the loop. -/
  | quit (s : Session F)
  /-- The process dies in a panic or a `log.Fatalln`. -/
  | crash (reason : String)

/-- The body of the event loop of `main` for the keyboard event `id`. -/
def handleEvent {F : Type} (s : Session F) (id : String) : Step F :=
  if id = "<Escape>" then
    if s.inputMode then .next { s with inputMode := false }
    else .quit s
  else if s.inputMode then
    if id = "<Backspace>" then
      if s.input.length > 0 then .next { s with input := s.input.dropLast }
      else .next s
    else
      if id = "<Enter>" ∧ s.serialPort = true then
        .next { s with
          driver := s.driver ++ [.Write s.input]
          writtenBytes := wrapInt64 (s.writtenBytes + (s.input.length : Int))
          input := [] }
      else .next { s with input := s.input ++ goStr (uiEventToChar id) }
  else
    let r : Except String (Session F) :=
      if id = "i" then
        if !s.paused then .ok { s with inputMode := true } else .ok s
      else if id = "p" then pauseOrUnpause s
      else if id = "m" then changeGuiMode s
      else if id = "z" then zoomInOut s
      else if id = "c" then .ok { s with messages := [] }
      else .ok s
    match r with
    | .error e => .crash e
    | .ok s =>
      if s.guiMode = Text then
        if id = "f" then .next { s with followMode := !s.followMode }
        else if id = "s" then .next { s with printTime := !s.printTime }
        else if id = "h" then .next { s with hexMode := !s.hexMode }
        else .next s
      else .next s

/-- How a run of `main` stands after a sequence of events. -/
inductive Outcome (F : Type) where
  /-- The event loop waits for the next event in this session state. -/
  | waiting (s : Session F)
  /-- Function `main` returned and its deferred calls completed. -/
  | returned (s : Session F)
  /-- The process died in a panic or a `log.Fatalln`. -/
  | aborted (reason : String)

/-- The event loop of `main` over the keyboard events `ids`, followed on
`break` by the deferred `closeSerial()`. -/
def eventLoop {F : Type} (s : Session F) : List String → Outcome F
  | [] => .waiting s
  | id :: ids =>
    match handleEvent s id with
    | .next s => eventLoop s ids
    | .quit s =>
      match closeSerial s with
      | .ok s => .returned s
      | .error e => .aborted e
    | .crash e => .aborted e

/-- The session variables as `main` sets them before `openSerial`. -/
def Session.init (F : Type) (flags : Flags) : Session F :=
  { guiMode := flags.guiMode, inputMode := false, followMode := true, paused := false,
    fullScreen := false, printTime := false, hexMode := false, serialPort := false,
    writtenBytes := 0, input := [], messages := [], mainGui := none, driver := [] }

/-- Function `main` up to its event loop: `validateFlags`, the initial values,
`openSerial`, `createGui`. -/
def startSession (F : Type) (flags : Flags) : Except String (Session F) :=
  match validateFlags flags with
  | .error e => .error e
  | .ok _ =>
    match openSerial (Session.init F flags) with
    | .error e => .error e
    | .ok s => createGui s

/-- Function `main` on the flags `flags` and the keyboard events `ids`. -/
def main (F : Type) (flags : Flags) (ids : List String) : Outcome F :=
  match startSession F flags with
  | .error e => .aborted e
  | .ok s => eventLoop s ids

/-- The paused flag of the session in which the event loop waits. -/
def Outcome.paused? {F : Type} : Outcome F → Option Bool
  | .waiting s => some s.paused
  | _ => none

/-- The port flag of the session in which the event loop waits. -/
def Outcome.serialPort? {F : Type} : Outcome F → Option Bool
  | .waiting s => some s.serialPort
  | _ => none

/-- The input-mode flag of the session in which the event loop waits. -/
def Outcome.inputMode? {F : Type} : Outcome F → Option Bool
  | .waiting s => some s.inputMode
  | _ => none

/-- The panic or fatal message, when the process died. -/
def Outcome.abort? {F : Type} : Outcome F → Option String
  | .aborted e => some e
  | _ => none

/-! ## Vocabulary of the statements -/

/-- The bytes of a text message; empty for any other content. -/
def Message.bytes {F : Type} (m : Message F) : GoString :=
  match m.Content with
  | .text s => s
  | _ => []

/-- The message carries text. -/
def Message.isText {F : Type} (m : Message F) : Bool :=
  match m.Content with
  | .text _ => true
  | _ => false

/-- The message carries text or a number, the contents the type switches of
`utils.go` handle. -/
def Message.isKnown {F : Type} (m : Message F) : Bool :=
  match m.Content with
  | .other => false
  | _ => true

/-- The label of a row: `[n]:` with the 1-based position, or the formatted
timestamp. -/
def rowLabel {F : Type} (env : Env F) (printTime : Bool) (i : Nat) (m : Message F) : GoString :=
  if printTime then goStr "[" ++ env.formatTime m.Timestamp ++ goStr "]:"
  else goStr "[" ++ fmtD (i + 1) ++ goStr "]:"

/-- The text row of a message: label, blank, content without trailing
`\r`/`\n`. -/
def textRow {F : Type} (env : Env F) (printTime : Bool) (i : Nat) (m : Message F) : GoString :=
  rowLabel env printTime i m ++ [SP] ++ TrimRight m.bytes CRLF

/-- The rows of the text message in position `i` (0-based): its text row,
followed in hex mode by its hex rows. -/
def textBlock {F : Type} (env : Env F) (printTime printInHex : Bool) (i : Nat)
    (m : Message F) : List GoString :=
  textRow env printTime i m :: (if printInHex then toHexLines m.bytes else [])

/-- The plot value of a message: a number as it is, a text through
`ParseFloat` of the trimmed line, `none` when that fails. -/
def pointOf {F : Type} (env : Env F) (m : Message F) : Option F :=
  match m.Content with
  | .number f => some f
  | .text s => env.ParseFloat (TrimRight s CRLF)
  | .other => none

/-- A text message with the content `s`, stamped `0`. -/
def txt {F : Type} (s : String) : Message F := NowMessage 0 (.text (goStr s))

/-! ### A concrete `Env` for evaluating examples -/

/-- Decimal fixed-point number `mantissa / 10 ^ scale`. -/
structure Fixed where
  mantissa : Nat
  scale : Nat
  deriving DecidableEq, Repr

/-- The byte is an ASCII digit. -/
def isDigit (b : Byte) : Bool := decide (48 ≤ b.val) && decide (b.val ≤ 57)

/-- Value of a string of ASCII digits. -/
def digitsValue (ds : GoString) : Nat := ds.foldl (fun acc b => acc * 10 + (b.val - 48)) 0

/-- Parser of the plain decimal literals `d+` and `d+.d+`; everything else is
rejected. On these literals it agrees with `strconv.ParseFloat`. -/
def Fixed.parse (s : GoString) : Option Fixed :=
  let ip := s.takeWhile isDigit
  match s.dropWhile isDigit with
  | [] => if ip.isEmpty then none else some ⟨digitsValue ip, 0⟩
  | b :: fp =>
    if b.val = 46 ∧ ip.isEmpty = false ∧ fp.isEmpty = false ∧ fp.all isDigit = true then
      some ⟨digitsValue (ip ++ fp), fp.length⟩
    else none

/-- An instance of `Env` on fixed-point decimals, for evaluating the
definitions on examples. -/
def fixedEnv : Env Fixed :=
  { zero := ⟨0, 0⟩
    ParseFloat := Fixed.parse
    formatFloat := fun x => fmtD x.mantissa ++ goStr "e-" ++ fmtD x.scale
    formatTime := fmtD }

/-- Upper-case hexadecimal digits `0123456789ABCDEF`. -/
def HEXUPPER : List Byte :=
  [48, 49, 50, 51, 52, 53, 54, 55, 56, 57, 65, 66, 67, 68, 69, 70]

/-- The upper-case two-digit hexadecimal pair of a byte. -/
def hexPairUpper (b : Byte) : GoString :=
  [HEXUPPER.getD (b.val / 16) ZERO, HEXUPPER.getD (b.val % 16) ZERO]

/-- The upper-case hexadecimal encoding of a byte string. -/
def upperHex (s : GoString) : GoString := s.flatMap hexPairUpper

/-- An offset written with exactly four lower-case hexadecimal digits. -/
def offset4 (n : Nat) : GoString :=
  [hexChar (n / 4096 % 16), hexChar (n / 256 % 16), hexChar (n / 16 % 16), hexChar (n % 16)]

/-- The bytes of `s` shown on hex row `k`: bytes `8k` up to `min (8k+8) n - 1`. -/
def rowBytes (s : GoString) (k : Nat) : GoString := (s.drop (8 * k)).take 8

/-- A hex row without its offset prefix and without blanks: everything up to
the first blank is dropped, then the blanks are removed. -/
def stripHexRow (row : GoString) : GoString :=
  (row.dropWhile (fun b => decide (b ≠ SP))).filter (fun b => decide (b ≠ SP))

/-- The newline-terminated lines of a byte stream, scanned with the unfinished
line `cur`; bytes after the last newline belong to no line. -/
def completeLines.aux : List Byte → List Byte → List GoString
  | [], _ => []
  | b :: bs, cur =>
    if b = NL then (cur ++ [b]) :: completeLines.aux bs []
    else completeLines.aux bs (cur ++ [b])

/-- The newline-terminated lines of a byte stream, each with its newline. -/
def completeLines (s : List Byte) : List GoString := completeLines.aux s []

/-- A run of `k` zero-byte reads. -/
def timeouts (k : Nat) : List (List Byte) := List.replicate k []

/-- A line as `ReadString` returns it: bytes without a newline, then one. -/
def IsLine (ln : GoString) : Prop := ∃ pre, ln = pre ++ [NL] ∧ NL ∉ pre

/-- The calls made on the serial driver when `main` has returned. -/
def Outcome.returnedDriver? {F : Type} : Outcome F → Option (List DriverCall)
  | .returned s => some s.driver
  | _ => none

/-- The port flag when `main` has returned. -/
def Outcome.returnedPort? {F : Type} : Outcome F → Option Bool
  | .returned s => some s.serialPort
  | _ => none

/-- A full read of `temp_buff`: 511 zero bytes and a newline, 512 bytes. -/
def fullLine : List Byte := List.replicate 511 0 ++ [NL]

/-- A delivery of `n` rounds, each a 512-byte read that ends a line followed
by a zero-byte read that sends it; the assembly buffer is empty after every
round. -/
def longRun (n : Nat) : List (List Byte) := (List.replicate n [fullLine, []]).flatten

/-! # Theorems -/

/-! ## The message store -/

theorem handleMessagesStep_length {F : Type} (messages : List (Message F)) (msg : Message F) :
    (handleMessagesStep messages msg).length
      = if messages.length > MAX_MSG_CAPACITY then messages.length else messages.length + 1 := by
  unfold handleMessagesStep
  by_cases h : messages.length > MAX_MSG_CAPACITY
  · simp only [h, if_true, List.length_cons, List.length_dropLast]
    omega
  · simp [h]

theorem handleMessages_length {F : Type} (msgs messages : List (Message F))
    (h : messages.length ≤ MAX_MSG_CAPACITY + 1) :
    (handleMessages messages msgs).length
      = min (messages.length + msgs.length) (MAX_MSG_CAPACITY + 1) := by
  induction msgs generalizing messages with
  | nil => simp [handleMessages]; omega
  | cons m ms ih =>
    have hstep := handleMessagesStep_length messages m
    have hle : (handleMessagesStep messages m).length ≤ MAX_MSG_CAPACITY + 1 := by
      rw [hstep]; split <;> omega
    have := ih (handleMessagesStep messages m) hle
    simp only [handleMessages, List.foldl_cons] at this ⊢
    rw [this, hstep, List.length_cons]
    split <;> omega

theorem handleMessages_length_nil {F : Type} (msgs : List (Message F)) :
    (handleMessages [] msgs).length = min msgs.length (MAX_MSG_CAPACITY + 1) := by
  have := handleMessages_length msgs ([] : List (Message F)) (by simp)
  simpa using this

/-- While the store is within capacity, `handleMessages` only pushes to the
front: the store is the reversed arrival sequence. -/
theorem handleMessages_small {F : Type} (msgs messages : List (Message F))
    (h : messages.length + msgs.length ≤ MAX_MSG_CAPACITY + 1) :
    handleMessages messages msgs = msgs.reverse ++ messages := by
  induction msgs generalizing messages with
  | nil => simp [handleMessages]
  | cons m ms ih =>
    have hlen : ¬ messages.length > MAX_MSG_CAPACITY := by
      simp only [List.length_cons] at h; omega
    have hs : handleMessagesStep messages m = m :: messages := by
      simp [handleMessagesStep, hlen]
    have := ih (m :: messages) (by simp only [List.length_cons] at h ⊢; omega)
    simp only [handleMessages, List.foldl_cons, hs] at this ⊢
    rw [this]; simp

/-- C1, the code at the failing input: starting from the empty store, once
`handleMessages` has inserted `MAX_MSG_CAPACITY + 1 = 10001` messages the store
holds 10001 messages, one more than `MAX_MSG_CAPACITY`; in general the store
after `n` inserts holds `min n 10001` messages, so the bound that the loop
keeps is `MAX_MSG_CAPACITY + 1`. -/
theorem C1_store_exceeds_capacity {F : Type} (m : Message F) :
    (handleMessages [] (List.replicate 10001 m)).length = 10001
    ∧ MAX_MSG_CAPACITY < (handleMessages [] (List.replicate 10001 m)).length
    ∧ ∀ msgs : List (Message F),
        (handleMessages [] msgs).length = min msgs.length (MAX_MSG_CAPACITY + 1) := by
  refine ⟨?_, ?_, handleMessages_length_nil⟩
  · rw [handleMessages_length_nil, List.length_replicate]; rfl
  · rw [handleMessages_length_nil, List.length_replicate]; decide

/-! ## The text transform -/

theorem Message.bytes_of_text {F : Type} (m : Message F) (s : GoString)
    (h : m.Content = .text s) : m.bytes = s := by
  simp [Message.bytes, h]

theorem ListToSliceMsg.loop_text {F : Type} (env : Env F) (maxLen : Nat)
    (printTime printInHex : Bool) (es : List (Message F)) (i : Nat) (arr : List GoString)
    (h : ∀ m ∈ es, m.isText = true) :
    ListToSliceMsg.loop env maxLen printTime printInHex es i arr
      = .ok (arr ++ ((es.take (maxLen - i)).enumFrom i).flatMap
          (fun im => textBlock env printTime printInHex im.1 im.2)) := by
  induction es generalizing i arr with
  | nil => simp [ListToSliceMsg.loop]
  | cons m es ih =>
    have hm : m.isText = true := h m (List.mem_cons_self _ _)
    have hes : ∀ x ∈ es, x.isText = true := fun x hx => h x (List.mem_cons_of_mem _ hx)
    by_cases hi : i < maxLen
    · obtain ⟨k, hk⟩ : ∃ k, maxLen - i = k + 1 := ⟨maxLen - i - 1, by omega⟩
      have hk' : maxLen - (i + 1) = k := by omega
      cases hc : m.Content with
      | text s =>
        have hb : m.bytes = s := Message.bytes_of_text m s hc
        cases printInHex with
        | true =>
          simp only [ListToSliceMsg.loop, hi, if_true, hc]
          rw [ih (i + 1) _ hes, hk, hk']
          simp [textBlock, textRow, rowLabel, hb, List.enumFrom_cons, List.append_assoc]
        | false =>
          simp only [ListToSliceMsg.loop, hi, if_true, hc, Bool.false_eq_true, if_false]
          rw [ih (i + 1) _ hes, hk, hk']
          simp [textBlock, textRow, rowLabel, hb, List.enumFrom_cons, List.append_assoc]
      | number f => simp [Message.isText, hc] at hm
      | other => simp [Message.isText, hc] at hm
    · have h0 : maxLen - i = 0 := by omega
      simp [ListToSliceMsg.loop, hi, h0]

theorem ListToSliceMsg_text {F : Type} (env : Env F) (l : List (Message F)) (maxLen : Nat)
    (printTime printInHex : Bool) (h : ∀ m ∈ l, m.isText = true) :
    ListToSliceMsg env l maxLen printTime printInHex
      = .ok (((l.reverse.take maxLen).enum).flatMap
          (fun im => textBlock env printTime printInHex im.1 im.2)) := by
  unfold ListToSliceMsg
  rw [ListToSliceMsg.loop_text env maxLen printTime printInHex l.reverse 0 []
    (fun m hm => h m (List.mem_reverse.mp hm))]
  simp [List.enum]

theorem flatMap_singleton_map {α β : Type} (f : α → β) (l : List α) :
    l.flatMap (fun x => [f x]) = l.map f := by
  induction l with
  | nil => rfl
  | cons a l ih => simp [List.flatMap_cons, ih]

theorem goStr_label_close : goStr "]: " = goStr "]:" ++ [SP] := by decide

/-- C2 (amended): for every store of text messages and every maximum row
count, `ListToSliceMsg` with `printTime = false` and `printInHex = false`
returns `min (store length) max` rows, oldest first: row `n` (1-based) is
`[n]: ` followed by the content of the `n`-th oldest message with the trailing
`\r`/`\n` stripped. -/
theorem C2_rows_oldest_first {F : Type} (env : Env F) (l : List (Message F)) (maxLen : Nat)
    (h : ∀ m ∈ l, m.isText = true) :
    ∃ rows, ListToSliceMsg env l maxLen false false = .ok rows
      ∧ rows.length = min l.length maxLen
      ∧ rows = ((l.reverse.take maxLen).enum).map
          (fun nm => goStr "[" ++ fmtD (nm.1 + 1) ++ goStr "]: " ++ TrimRight nm.2.bytes CRLF) := by
  refine ⟨_, ListToSliceMsg_text env l maxLen false false h, ?_, ?_⟩
  · simp only [textBlock, Bool.false_eq_true, if_false]
    rw [flatMap_singleton_map]
    simp [List.enum, Nat.min_comm]
  · simp only [textBlock, Bool.false_eq_true, if_false]
    rw [flatMap_singleton_map]
    apply List.map_congr_left
    intro nm _
    simp [textRow, rowLabel, goStr_label_close, List.append_assoc]

/-- C2, witness: the messages `a`, `b`, `c` (`c` newest) with at most 2 rows
give the rows `[1]: a` and `[2]: b`. -/
theorem C2_rows_oldest_first_witness :
    ListToSliceMsg fixedEnv (handleMessages [] [txt "a", txt "b", txt "c"]) 2 false false
      = .ok [goStr "[1]: a", goStr "[2]: b"] := by
  obtain ⟨rows, h1, _, h3⟩ :=
    C2_rows_oldest_first fixedEnv (handleMessages [] [txt "a", txt "b", txt "c"]) 2 (by decide)
  rw [h1, h3]
  rfl

/-- C2, counterexample: for the messages `a`, `b`, `c` (`c` newest) and at
most 2 rows the result is `[1]: a`, `[2]: b`, not `[1]: c`, `[2]: b`. -/
theorem C2_newest_first_counterexample :
    ListToSliceMsg fixedEnv (handleMessages [] [txt "a", txt "b", txt "c"]) 2 false false
        = .ok [goStr "[1]: a", goStr "[2]: b"]
    ∧ ListToSliceMsg fixedEnv (handleMessages [] [txt "a", txt "b", txt "c"]) 2 false false
        ≠ .ok [goStr "[1]: c", goStr "[2]: b"] := by
  have h : ListToSliceMsg fixedEnv (handleMessages [] [txt "a", txt "b", txt "c"]) 2 false false
      = .ok [goStr "[1]: a", goStr "[2]: b"] := by rfl
  refine ⟨h, ?_⟩
  rw [h]
  intro hc
  have := Except.ok.inj hc
  revert this
  decide

/-! ## The plot transform -/

theorem drop_set_self {α : Type} (arr : List α) (k : Nat) (v : α) (h : k < arr.length) :
    (arr.set k v).drop k = v :: arr.drop (k + 1) := by
  induction arr generalizing k with
  | nil => simp at h
  | cons a arr ih =>
    cases k with
    | zero => simp
    | succ k =>
      simp only [List.length_cons] at h
      simpa using ih k (by omega)

theorem ListToSliceFloat.loop_known {F : Type} (env : Env F) (es : List (Message F)) (j : Nat)
    (arr : List F) (hj : j ≤ arr.length) (h : ∀ m ∈ es, m.isKnown = true) :
    ∃ arr' i', ListToSliceFloat.loop env es ((j : Int) - 1) arr = .ok (arr', i')
      ∧ arr'.drop (i' + 1).toNat = ((es.filterMap (pointOf env)).take j).reverse ++ arr.drop j := by
  induction es generalizing j arr with
  | nil => exact ⟨arr, (j : Int) - 1, by simp [ListToSliceFloat.loop], by simp⟩
  | cons m es ih =>
    have hes : ∀ x ∈ es, x.isKnown = true := fun x hx => h x (List.mem_cons_of_mem _ hx)
    have hm : m.isKnown = true := h m (List.mem_cons_self _ _)
    cases j with
    | zero =>
      refine ⟨arr, -1, ?_, by simp⟩
      simp [ListToSliceFloat.loop]
    | succ k =>
      have hi : ((k + 1 : Nat) : Int) - 1 = (k : Int) := by push_cast; ring
      have hge : (k : Int) ≥ 0 := Int.natCast_nonneg k
      have hklt : k < arr.length := by omega
      have hstore : ∀ v : F, ∃ arr' i',
          ListToSliceFloat.loop env es ((k : Int) - 1) (arr.set k v) = .ok (arr', i')
          ∧ arr'.drop (i' + 1).toNat
              = ((v :: es.filterMap (pointOf env)).take (k + 1)).reverse ++ arr.drop (k + 1) := by
        intro v
        obtain ⟨arr', i', h1, h2⟩ := ih k (arr.set k v) (by simp; omega) hes
        refine ⟨arr', i', h1, ?_⟩
        rw [h2, drop_set_self arr k v hklt]
        simp
      have hskip : ∃ arr' i',
          ListToSliceFloat.loop env es ((k : Int) + 1 - 1) arr = .ok (arr', i')
          ∧ arr'.drop (i' + 1).toNat
              = ((es.filterMap (pointOf env)).take (k + 1)).reverse ++ arr.drop (k + 1) := by
        have := ih (k + 1) arr hj hes
        simpa using this
      rw [hi]
      cases hc : m.Content with
      | number f =>
        obtain ⟨arr', i', h1, h2⟩ := hstore f
        refine ⟨arr', i', ?_, ?_⟩
        · simp only [ListToSliceFloat.loop, hge, if_true, hc, Int.toNat_ofNat]
          exact h1
        · rw [h2]; simp [pointOf, hc]
      | text s =>
        cases hp : env.ParseFloat (TrimRight s CRLF) with
        | some num =>
          obtain ⟨arr', i', h1, h2⟩ := hstore num
          refine ⟨arr', i', ?_, ?_⟩
          · simp only [ListToSliceFloat.loop, hge, if_true, hc, hp, Int.toNat_ofNat]
            exact h1
          · rw [h2]; simp [pointOf, hc, hp]
        | none =>
          obtain ⟨arr', i', h1, h2⟩ := hskip
          refine ⟨arr', i', ?_, ?_⟩
          · simp only [ListToSliceFloat.loop, hge, if_true, hc, hp]
            exact h1
          · rw [h2]; simp [pointOf, hc, hp]
      | other => simp [Message.isKnown, hc] at hm

theorem ListToSliceFloat_known {F : Type} (env : Env F) (l : List (Message F)) (maxLen : Nat)
    (h : ∀ m ∈ l, m.isKnown = true) :
    ListToSliceFloat env l maxLen = .ok (((l.filterMap (pointOf env)).take maxLen).reverse) := by
  obtain ⟨arr', i', h1, h2⟩ :=
    ListToSliceFloat.loop_known env l maxLen (List.replicate maxLen env.zero) (by simp) h
  unfold ListToSliceFloat
  rw [h1]
  simp only
  rw [h2]
  simp

theorem convertMsgsToPointsCap_known {F : Type} (env : Env F) (maxPoints : Nat)
    (l : List (Message F)) (h : ∀ m ∈ l, m.isKnown = true) :
    convertMsgsToPointsCap env maxPoints l
      = .ok (((l.filterMap (pointOf env)).take (min l.length maxPoints)).reverse) := by
  unfold convertMsgsToPointsCap
  simp only
  rw [ListToSliceFloat_known env l _ h]
  congr 3
  split <;> omega

/-- C4 (amended): for every store of text and numeric messages and every
maximum point count, the plot transform returns, oldest first, the values of
the newest `min (store length) max` messages of the whole store that are
numeric or whose trimmed text parses as a float (all of them when fewer
parse); unparsable messages are omitted, not zero-filled. When the store holds
at most `max` messages these are exactly its parsable messages. -/
theorem C4_plot_points {F : Type} (env : Env F) (maxPoints : Nat) (l : List (Message F))
    (h : ∀ m ∈ l, m.isKnown = true) :
    convertMsgsToPointsCap env maxPoints l
        = .ok (((l.filterMap (pointOf env)).take (min l.length maxPoints)).reverse)
    ∧ convertMsgsToPoints env l
        = .ok [((l.filterMap (pointOf env)).take (min l.length MAX_POINT_CAPACITY)).reverse]
    ∧ (l.length ≤ maxPoints →
        convertMsgsToPointsCap env maxPoints l = .ok ((l.filterMap (pointOf env)).reverse)) := by
  have h1 := convertMsgsToPointsCap_known env maxPoints l h
  refine ⟨h1, ?_, ?_⟩
  · unfold convertMsgsToPoints
    rw [convertMsgsToPointsCap_known env MAX_POINT_CAPACITY l h]
  · intro hle
    rw [h1, Nat.min_eq_left hle, List.take_of_length_le]
    exact (List.length_filterMap_le _ _)

/-- C4, witness: `1.5`, `bad`, `2.5` inserted oldest to newest with at most
200 points give `[1.5, 2.5]`. -/
theorem C4_plot_points_witness :
    convertMsgsToPoints fixedEnv (handleMessages [] [txt "1.5", txt "bad", txt "2.5"])
      = .ok [[⟨15, 1⟩, ⟨25, 1⟩]] := by
  rw [(C4_plot_points fixedEnv 200 (handleMessages [] [txt "1.5", txt "bad", txt "2.5"])
    (by decide)).2.1]
  rfl

/-- C4, counterexample: with at most 1 point and the store `1.5`, `bad` (`bad`
newest), the newest message does not parse, so the parsed values among the
newest `min 2 1 = 1` messages are none; the code returns `[1.5]`. -/
theorem C4_newest_window_counterexample :
    convertMsgsToPointsCap fixedEnv 1 (handleMessages [] [txt "1.5", txt "bad"])
        = .ok [⟨15, 1⟩]
    ∧ (((handleMessages [] [txt "1.5", txt "bad"]).take
          (min (handleMessages [] [txt "1.5", txt "bad"] : List (Message Fixed)).length 1)).filterMap
        (pointOf fixedEnv)).reverse = []
    ∧ convertMsgsToPointsCap fixedEnv 1 (handleMessages [] [txt "1.5", txt "bad"])
        ≠ .ok ((((handleMessages [] [txt "1.5", txt "bad"]).take
          (min (handleMessages [] [txt "1.5", txt "bad"] : List (Message Fixed)).length 1)).filterMap
        (pointOf fixedEnv)).reverse) := by
  have h1 : convertMsgsToPointsCap fixedEnv 1 (handleMessages [] [txt "1.5", txt "bad"])
      = .ok [⟨15, 1⟩] := by rfl
  have h2 : (((handleMessages [] [txt "1.5", txt "bad"]).take
          (min (handleMessages [] [txt "1.5", txt "bad"] : List (Message Fixed)).length 1)).filterMap
        (pointOf fixedEnv)).reverse = [] := by decide
  refine ⟨h1, h2, ?_⟩
  rw [h1, h2]
  intro hc
  exact absurd (Except.ok.inj hc) (by decide)

/-! ## The hex transform -/

set_option maxRecDepth 100000 in
theorem encode_pair_upper (v : Byte) :
    ToUpper [hexChar (v.val >>> 4), hexChar (v.val &&& 0x0f)] = hexPairUpper v := by
  revert v
  decide

theorem ToUpper_append (a b : GoString) : ToUpper (a ++ b) = ToUpper a ++ ToUpper b := by
  simp [ToUpper]

theorem ToUpper_EncodeToString (s : GoString) : ToUpper (EncodeToString s) = upperHex s := by
  induction s with
  | nil => rfl
  | cons v s ih =>
    have : EncodeToString (v :: s)
        = [hexChar (v.val >>> 4), hexChar (v.val &&& 0x0f)] ++ EncodeToString s := by
      simp [EncodeToString]
    rw [this, ToUpper_append, ih, encode_pair_upper]
    simp [upperHex]

theorem upperHex_length (s : GoString) : (upperHex s).length = 2 * s.length := by
  induction s with
  | nil => rfl
  | cons v s ih =>
    have : upperHex (v :: s) = hexPairUpper v ++ upperHex s := by simp [upperHex]
    rw [this, List.length_append, ih]
    simp [hexPairUpper]
    omega

theorem upperHex_drop (s : GoString) (k : Nat) :
    (upperHex s).drop (2 * k) = upperHex (s.drop k) := by
  induction s generalizing k with
  | nil => simp [upperHex]
  | cons v s ih =>
    cases k with
    | zero => simp
    | succ k =>
      have h1 : upperHex (v :: s) = hexPairUpper v ++ upperHex s := by simp [upperHex]
      have h2 : 2 * (k + 1) = 2 * k + 2 := by ring
      rw [h1, h2]
      simpa [hexPairUpper] using ih k

theorem upperHex_take (s : GoString) (k : Nat) :
    (upperHex s).take (2 * k) = upperHex (s.take k) := by
  induction s generalizing k with
  | nil => simp [upperHex]
  | cons v s ih =>
    cases k with
    | zero => simp [upperHex]
    | succ k =>
      have h1 : ∀ t, upperHex (v :: t) = hexPairUpper v ++ upperHex t := by
        intro t; simp [upperHex]
      have h2 : 2 * (k + 1) = 2 * k + 2 := by ring
      rw [h1, h2, List.take_succ_cons, h1]
      simpa [hexPairUpper] using ih k

theorem upperHex_cons (v : Byte) (s : GoString) :
    upperHex (v :: s) = hexPairUpper v ++ upperHex s := by
  simp [upperHex]

theorem hexLine_eq (s : GoString) (i : Nat) :
    ((upperHex s).drop (i * 16)).take
        ((if (i + 1) * 16 > (upperHex s).length then (upperHex s).length else (i + 1) * 16) - i * 16)
      = upperHex (rowBytes s i) := by
  have h16 : i * 16 = 2 * (8 * i) := by ring
  rw [h16, upperHex_drop, upperHex_length]
  unfold rowBytes
  by_cases hlast : (i + 1) * 16 > 2 * s.length
  · rw [if_pos hlast]
    have hlen : (s.drop (8 * i)).length ≤ 8 := by rw [List.length_drop]; omega
    rw [List.take_of_length_le hlen, List.take_of_length_le]
    rw [upperHex_length, List.length_drop]; omega
  · rw [if_neg hlast]
    have : (i + 1) * 16 - 2 * (8 * i) = 2 * 8 := by omega
    rw [this, upperHex_take]

theorem toHexLines_eq (s : GoString) :
    toHexLines s
      = (List.range ((s.length + 7) / 8)).map (fun k => splitHexLine (upperHex (rowBytes s k)) k) := by
  unfold toHexLines
  simp only [ToUpper_EncodeToString]
  have hcount : ((upperHex s).length + 15) / 16 = (s.length + 7) / 8 := by
    rw [upperHex_length]; omega
  rw [hcount]
  apply List.map_congr_left
  intro i _
  rw [hexLine_eq s i]

/-- The blank-insertion loop of `splitHexLine`. -/
theorem spaced_from (bs : GoString) (j : Nat) (hj : j % 2 = 0) (hj0 : j ≠ 0) :
    ((upperHex bs).enumFrom j).flatMap
        (fun ir => if ir.1 ≠ 0 ∧ ir.1 % 2 = 0 then [SP, ir.2] else [ir.2])
      = bs.flatMap (fun b => SP :: hexPairUpper b) := by
  induction bs generalizing j with
  | nil => simp [upperHex]
  | cons b bs ih =>
    have h1 : (j + 1) % 2 ≠ 0 := by omega
    have h2 : (j + 1 + 1) % 2 = 0 := by omega
    rw [upperHex_cons]
    simp only [hexPairUpper, List.cons_append, List.nil_append, List.enumFrom_cons,
      List.flatMap_cons]
    rw [ih (j + 1 + 1) h2 (by omega)]
    simp [hj, hj0, h1, hexPairUpper]

theorem intercalate_cons_flatMap (x : GoString) (xs : List GoString) :
    List.intercalate [SP] (x :: xs) = x ++ xs.flatMap (fun y => SP :: y) := by
  induction xs generalizing x with
  | nil => simp [List.intercalate]
  | cons y ys ih =>
    have := ih y
    simp only [List.intercalate, List.intersperse, List.flatten_cons, List.flatMap_cons] at this ⊢
    rw [this]
    simp

theorem spaced_zero (bs : GoString) :
    ((upperHex bs).enum).flatMap
        (fun ir => if ir.1 ≠ 0 ∧ ir.1 % 2 = 0 then [SP, ir.2] else [ir.2])
      = List.intercalate [SP] (bs.map hexPairUpper) := by
  cases bs with
  | nil => simp [upperHex, List.enum, List.intercalate]
  | cons b bs =>
    rw [List.map_cons, intercalate_cons_flatMap, upperHex_cons]
    simp only [List.enum, hexPairUpper, List.cons_append, List.nil_append, List.enumFrom_cons,
      List.flatMap_cons]
    rw [spaced_from bs (0 + 1 + 1) (by decide) (by decide)]
    simp [hexPairUpper, List.flatMap_map]

theorem splitHexLine_upperHex (bs : GoString) (k : Nat) :
    splitHexLine (upperHex bs) k
      = fmt04x (k * 8) ++ [DASH] ++ fmt04x (k * 8 + 7) ++ [SP, SP]
          ++ List.intercalate [SP] (bs.map hexPairUpper) := by
  unfold splitHexLine
  rw [spaced_zero]

/-! ### The offsets of a hex row -/

theorem fmtDigits_fuel (base : Nat) (hb : 2 ≤ base) (n : Nat) :
    ∀ (fuel : Nat) (acc : GoString), n < fuel →
      fmtDigits base fuel n acc = fmtDigits base (n + 1) n [] ++ acc := by
  induction n using Nat.strong_induction_on with
  | _ n ih =>
    intro fuel acc hfuel
    obtain ⟨f, rfl⟩ : ∃ f, fuel = f + 1 := ⟨fuel - 1, by omega⟩
    by_cases h0 : n / base = 0
    · simp [fmtDigits, h0]
    · have hlt : n / base < n := by
        have hn : 0 < n := by
          rcases Nat.eq_zero_or_pos n with h | h
          · subst h; simp at h0
          · exact h
        exact Nat.div_lt_self hn (by omega)
      simp only [fmtDigits, h0, if_false]
      rw [ih (n / base) hlt f _ (by omega), ih (n / base) hlt n _ hlt]
      simp

/-- The digit recursion of `%x`: the digits of `n / 16`, then the last digit. -/
theorem hexDigits_step (n : Nat) (h : n / 16 ≠ 0) :
    fmtDigits 16 (n + 1) n [] = fmtDigits 16 (n / 16 + 1) (n / 16) [] ++ [hexChar (n % 16)] := by
  have hlt : n / 16 < n := by omega
  have hstep : fmtDigits 16 (n + 1) n [] = fmtDigits 16 n (n / 16) [hexChar (n % 16)] := by
    rw [fmtDigits]; simp [h]
  rw [hstep, fmtDigits_fuel 16 (by decide) (n / 16) n _ hlt]

theorem hexDigits_small (n : Nat) (h : n / 16 = 0) :
    fmtDigits 16 (n + 1) n [] = [hexChar (n % 16)] := by
  simp [fmtDigits, h]

theorem hexChar_zero : hexChar 0 = ZERO := by decide

/-- Below `65536` the verb `%04x` writes exactly four digits. -/
theorem fmt04x_eq_offset4 (n : Nat) (h : n < 65536) : fmt04x n = offset4 n := by
  unfold fmt04x offset4
  by_cases h1 : n / 16 = 0
  · rw [hexDigits_small n h1]
    have e1 : n / 4096 % 16 = 0 := by omega
    have e2 : n / 256 % 16 = 0 := by omega
    have e3 : n / 16 % 16 = 0 := by omega
    simp [e1, e2, e3, hexChar_zero, List.replicate]
  · rw [hexDigits_step n h1]
    by_cases h2 : n / 16 / 16 = 0
    · rw [hexDigits_small _ h2]
      have e1 : n / 4096 % 16 = 0 := by omega
      have e2 : n / 256 % 16 = 0 := by omega
      simp [e1, e2, hexChar_zero, List.replicate]
    · rw [hexDigits_step _ h2]
      by_cases h3 : n / 16 / 16 / 16 = 0
      · rw [hexDigits_small _ h3]
        have e1 : n / 4096 % 16 = 0 := by omega
        have e2 : n / 16 / 16 % 16 = n / 256 % 16 := by omega
        simp [e1, e2, hexChar_zero, List.replicate]
      · rw [hexDigits_step _ h3]
        have h4 : n / 16 / 16 / 16 / 16 = 0 := by omega
        rw [hexDigits_small _ h4]
        have e1 : n / 16 / 16 / 16 % 16 = n / 4096 % 16 := by omega
        have e2 : n / 16 / 16 % 16 = n / 256 % 16 := by omega
        simp [e1, e2, List.replicate]

theorem hexChar_ne_SP (d : Nat) : hexChar d ≠ SP := by
  by_cases h : d < 16
  · interval_cases d <;> decide
  · have : hexChar d = ZERO := by
      unfold hexChar
      rw [List.getD_eq_default]
      simp [hextable]; omega
    rw [this]; decide

theorem fmtDigits_no_SP (base : Nat) (fuel : Nat) :
    ∀ (n : Nat) (acc : GoString), (∀ c ∈ acc, c ≠ SP) →
      ∀ c ∈ fmtDigits base fuel n acc, c ≠ SP := by
  induction fuel with
  | zero => intro n acc hacc; simpa [fmtDigits] using hacc
  | succ f ih =>
    intro n acc hacc
    have hcons : ∀ c ∈ hexChar (n % base) :: acc, c ≠ SP := by
      intro c hc
      rcases List.mem_cons.mp hc with h | h
      · rw [h]; exact hexChar_ne_SP _
      · exact hacc c h
    unfold fmtDigits
    split
    · exact hcons
    · exact ih _ _ hcons

theorem fmt04x_no_SP (n : Nat) : ∀ c ∈ fmt04x n, c ≠ SP := by
  intro c hc
  unfold fmt04x at hc
  simp only [List.mem_append] at hc
  rcases hc with h | h
  · rw [(List.mem_replicate.mp h).2]; decide
  · exact fmtDigits_no_SP 16 _ _ [] (by simp) c h

theorem hexUpper_ne_SP (d : Nat) : HEXUPPER.getD d ZERO ≠ SP := by
  by_cases h : d < 16
  · interval_cases d <;> decide
  · have : HEXUPPER.getD d ZERO = ZERO := by
      rw [List.getD_eq_default]
      simp [HEXUPPER]; omega
    rw [this]; decide

theorem hexPairUpper_no_SP (b : Byte) : ∀ c ∈ hexPairUpper b, c ≠ SP := by
  intro c hc
  simp only [hexPairUpper, List.mem_cons, List.mem_singleton, List.not_mem_nil, or_false] at hc
  rcases hc with h | h <;> rw [h] <;> exact hexUpper_ne_SP _

/-! ### Reading the bytes back from the hex rows -/

theorem dropWhile_append_all {α : Type} (p : α → Bool) (xs ys : List α)
    (h : ∀ c ∈ xs, p c = true) : (xs ++ ys).dropWhile p = ys.dropWhile p := by
  induction xs with
  | nil => rfl
  | cons x xs ih =>
    have hx : p x = true := h x (List.mem_cons_self _ _)
    simp only [List.cons_append, List.dropWhile_cons, hx, if_true]
    exact ih (fun c hc => h c (List.mem_cons_of_mem _ hc))

theorem filter_spaced (bs : GoString) :
    (bs.flatMap (fun b => SP :: hexPairUpper b)).filter (fun b => decide (b ≠ SP))
      = upperHex bs := by
  induction bs with
  | nil => rfl
  | cons b bs ih =>
    have hb : (hexPairUpper b).filter (fun c => decide (c ≠ SP)) = hexPairUpper b :=
      List.filter_eq_self.mpr (fun c hc => by simpa using hexPairUpper_no_SP b c hc)
    rw [List.flatMap_cons, upperHex_cons, List.cons_append, List.filter_cons_of_neg (by simp),
      List.filter_append, hb, ih]

theorem filter_intercalate (bs : GoString) :
    (List.intercalate [SP] (bs.map hexPairUpper)).filter (fun b => decide (b ≠ SP))
      = upperHex bs := by
  cases bs with
  | nil => simp [List.intercalate, upperHex]
  | cons b bs =>
    have hb : (hexPairUpper b).filter (fun c => decide (c ≠ SP)) = hexPairUpper b :=
      List.filter_eq_self.mpr (fun c hc => by simpa using hexPairUpper_no_SP b c hc)
    rw [List.map_cons, intercalate_cons_flatMap, List.filter_append, hb, List.flatMap_map,
      filter_spaced, upperHex_cons]

theorem stripHexRow_splitHexLine (bs : GoString) (k : Nat) :
    stripHexRow (splitHexLine (upperHex bs) k) = upperHex bs := by
  rw [splitHexLine_upperHex]
  unfold stripHexRow
  have hpre : ∀ c ∈ fmt04x (k * 8) ++ [DASH] ++ fmt04x (k * 8 + 7),
      (fun b : Byte => decide (b ≠ SP)) c = true := by
    intro c hc
    simp only [List.mem_append, List.mem_singleton] at hc
    simp only [decide_eq_true_eq]
    rcases hc with (h | h) | h
    · exact fmt04x_no_SP _ c h
    · rw [h]; decide
    · exact fmt04x_no_SP _ c h
  rw [List.append_assoc (fmt04x (k * 8) ++ [DASH] ++ fmt04x (k * 8 + 7)),
    dropWhile_append_all _ _ _ hpre]
  have hd : ([SP, SP] ++ List.intercalate [SP] (bs.map hexPairUpper)).dropWhile
      (fun b => decide (b ≠ SP)) = [SP, SP] ++ List.intercalate [SP] (bs.map hexPairUpper) := by
    simp [List.dropWhile_cons]
  rw [hd, List.filter_append, filter_intercalate]
  rfl

theorem rowBytes_flatten (m : Nat) : ∀ s : GoString, s.length ≤ 8 * m →
    (List.range m).flatMap (rowBytes s) = s := by
  induction m with
  | zero =>
    intro s hs
    have : s = [] := List.eq_nil_of_length_eq_zero (by omega)
    simp [this]
  | succ m ih =>
    intro s hs
    rw [List.range_succ_eq_map, List.flatMap_cons, List.flatMap_map]
    have hshift : ∀ k, rowBytes s (k + 1) = rowBytes (s.drop 8) k := by
      intro k
      simp only [rowBytes, List.drop_drop]
      congr 2
      ring
    have : (List.range m).flatMap (fun a => rowBytes s a.succ)
        = (List.range m).flatMap (rowBytes (s.drop 8)) := by
      congr 1
      funext k
      exact hshift k
    rw [this, ih (s.drop 8) (by rw [List.length_drop]; omega)]
    simp [rowBytes]

theorem toHexLines_strip (s : GoString) :
    (toHexLines s).flatMap stripHexRow = upperHex s := by
  rw [toHexLines_eq, List.flatMap_map]
  have : (fun k => stripHexRow (splitHexLine (upperHex (rowBytes s k)) k))
      = (fun k => (rowBytes s k).flatMap hexPairUpper) := by
    funext k
    rw [stripHexRow_splitHexLine]; rfl
  simp only [Function.comp_def] at *
  rw [this, ← List.flatMap_assoc, rowBytes_flatten _ s (by omega)]
  rfl

/-! ## Claims C10 and C3 -/

/-- C10 (amended): for every string `s` of `n` bytes, `toHexLines s` returns
exactly `ceil (n / 8)` rows, and row `k` (0-based) is the offset `k*8` in
lower-case hexadecimal, zero-padded to at least 4 digits, a `-`, the offset
`k*8+7` in the same format, two spaces, and then the upper-case two-digit hex
pairs of bytes `8k` up to `min (8k+8) n - 1` of `s` separated by single
spaces; the offsets have exactly 4 digits while they are below `65536`. -/
theorem C10_hex_rows (s : GoString) :
    (toHexLines s).length = (s.length + 7) / 8
    ∧ toHexLines s = (List.range ((s.length + 7) / 8)).map (fun k =>
        fmt04x (k * 8) ++ [DASH] ++ fmt04x (k * 8 + 7) ++ [SP, SP]
          ++ List.intercalate [SP] ((rowBytes s k).map hexPairUpper))
    ∧ ∀ k, k * 8 + 7 < 65536 →
        fmt04x (k * 8) = offset4 (k * 8) ∧ fmt04x (k * 8 + 7) = offset4 (k * 8 + 7) := by
  refine ⟨?_, ?_, ?_⟩
  · rw [toHexLines_eq]; simp
  · rw [toHexLines_eq]
    apply List.map_congr_left
    intro k _
    exact splitHexLine_upperHex _ k
  · intro k hk
    exact ⟨fmt04x_eq_offset4 _ (by omega), fmt04x_eq_offset4 _ hk⟩

/-- C10, witness: the ten bytes `0123456789` give the rows
`0000-0007  30 31 32 33 34 35 36 37` and `0008-000f  38 39`. -/
theorem C10_hex_rows_witness :
    toHexLines (goStr "0123456789")
        = [goStr "0000-0007  30 31 32 33 34 35 36 37", goStr "0008-000f  38 39"]
    ∧ (1 * 8 + 7 < 65536 ∧ fmt04x (1 * 8) = offset4 (1 * 8)
        ∧ fmt04x (1 * 8 + 7) = offset4 (1 * 8 + 7)) := by
  refine ⟨?_, by decide, ?_⟩
  · rw [(C10_hex_rows (goStr "0123456789")).2.1]
    decide
  · exact (C10_hex_rows (goStr "0123456789")).2.2 1 (by decide)

/-- C10, counterexample: for a string of 65537 zero bytes, row 8192 starts
with the five-digit offsets `10000-10007`; it is not the row with the
four-digit offsets. -/
theorem C10_four_digit_counterexample :
    (toHexLines (List.replicate 65537 (0 : Byte)))[8192]? = some (goStr "10000-10007  00")
    ∧ (toHexLines (List.replicate 65537 (0 : Byte)))[8192]?
        ≠ some (offset4 (8192 * 8) ++ [DASH] ++ offset4 (8192 * 8 + 7) ++ [SP, SP]
            ++ List.intercalate [SP]
              ((rowBytes (List.replicate 65537 (0 : Byte)) 8192).map hexPairUpper)) := by
  have hrow : rowBytes (List.replicate 65537 (0 : Byte)) 8192 = [0] := by
    unfold rowBytes
    rw [List.drop_replicate, List.take_replicate]
    rfl
  have h : (toHexLines (List.replicate 65537 (0 : Byte)))[8192]?
      = some (goStr "10000-10007  00") := by
    rw [toHexLines_eq, List.length_replicate, List.getElem?_map,
      List.getElem?_range (by decide), Option.map_some', hrow, splitHexLine_upperHex]
    decide
  refine ⟨h, ?_⟩
  rw [h, hrow]
  decide

/-- C3 (amended): for every store of text messages shown in hex mode, the
rows of `ListToSliceMsg` are, message by message (oldest first), the text row
followed by the hex rows `toHexLines` of the content; removing the offset
prefix and the spaces from these hex rows and concatenating them gives exactly
the upper-case hex encoding of the bytes of the content as stored, the
trailing `\r`/`\n` included. -/
theorem C3_hex_rows_encode_content {F : Type} (env : Env F) (l : List (Message F))
    (maxLen : Nat) (printTime : Bool) (h : ∀ m ∈ l, m.isText = true) :
    ListToSliceMsg env l maxLen printTime true
        = .ok (((l.reverse.take maxLen).enum).flatMap
            (fun im => textRow env printTime im.1 im.2 :: toHexLines im.2.bytes))
    ∧ ∀ m ∈ l, (toHexLines m.bytes).flatMap stripHexRow = ToUpper (EncodeToString m.bytes) := by
  refine ⟨?_, ?_⟩
  · rw [ListToSliceMsg_text env l maxLen printTime true h]
    simp [textBlock]
  · intro m _
    rw [toHexLines_strip, ToUpper_EncodeToString]

/-- C3, witness: the message `a\n` in hex mode gives the text row `[1]: a` and
the hex row `0000-0007  61 0A`, which reads back as `610A`. -/
theorem C3_hex_rows_encode_content_witness :
    ListToSliceMsg fixedEnv [txt "a\n"] 1 false true
        = .ok [goStr "[1]: a", goStr "0000-0007  61 0A"]
    ∧ (toHexLines (goStr "a\n")).flatMap stripHexRow = goStr "610A" := by
  have h := C3_hex_rows_encode_content fixedEnv [txt "a\n"] 1 false (by decide)
  refine ⟨?_, ?_⟩
  · rw [h.1]; rfl
  · have := h.2 (txt "a\n") (by simp)
    rw [show (txt "a\n" : Message Fixed).bytes = goStr "a\n" from rfl] at this
    rw [this]; decide

/-- C3, counterexample: for the message `a\n` the hex rows read back as
`610A`, the encoding of `a\n`, not as `61`, the encoding of the trimmed line
`a`. -/
theorem C3_trimmed_counterexample :
    ListToSliceMsg fixedEnv [txt "a\n"] 1 false true
        = .ok [goStr "[1]: a", goStr "0000-0007  61 0A"]
    ∧ stripHexRow (goStr "0000-0007  61 0A") = goStr "610A"
    ∧ ToUpper (EncodeToString (TrimRight (goStr "a\n") CRLF)) = goStr "61"
    ∧ (toHexLines (goStr "a\n")).flatMap stripHexRow
        ≠ ToUpper (EncodeToString (TrimRight (goStr "a\n") CRLF)) := by
  refine ⟨by rfl, by decide, by decide, by decide⟩

/-! ## The line framer -/

theorem IndexByte_first (pre suf : List Byte) (c : Byte) (h : c ∉ pre) :
    IndexByte (pre ++ c :: suf) c = some pre.length := by
  induction pre with
  | nil => simp [IndexByte]
  | cons b pre ih =>
    have hb : b ≠ c := fun e => h (e ▸ List.mem_cons_self _ _)
    have hpre : c ∉ pre := fun hm => h (List.mem_cons_of_mem _ hm)
    simp [IndexByte, hb, ih hpre]

theorem IndexByte_none (buf : List Byte) (c : Byte) (h : c ∉ buf) : IndexByte buf c = none := by
  induction buf with
  | nil => rfl
  | cons b buf ih =>
    have hb : b ≠ c := fun e => h (e ▸ List.mem_cons_self _ _)
    have hbuf : c ∉ buf := fun hm => h (List.mem_cons_of_mem _ hm)
    simp [IndexByte, hb, ih hbuf]

theorem exists_first_split (buf : List Byte) (c : Byte) (h : c ∈ buf) :
    ∃ pre suf, buf = pre ++ c :: suf ∧ c ∉ pre := by
  induction buf with
  | nil => simp at h
  | cons b buf ih =>
    by_cases hb : b = c
    · exact ⟨[], buf, by simp [hb], by simp⟩
    · have hmem : c ∈ buf := by
        rcases List.mem_cons.mp h with e | e
        · exact absurd e.symm hb
        · exact e
      obtain ⟨pre, suf, he, hn⟩ := ih hmem
      refine ⟨b :: pre, suf, by simp [he], ?_⟩
      intro hc
      rcases List.mem_cons.mp hc with e | e
      · exact hb e.symm
      · exact hn e

/-- A zero-byte read on a buffer with a newline: the first line is sent and
the rest stays. -/
theorem readSerialStep_timeout_line (st : ReaderState) (pre suf : List Byte)
    (hb : st.buff = pre ++ NL :: suf) (hn : NL ∉ pre) :
    readSerialStep st [] = ({ st with buff := suf }, some (pre ++ [NL])) := by
  have hlen : ¬ (pre.length + (suf.length + 1) = 0) := by omega
  simp [readSerialStep, ReadString, hb, IndexByte_first pre suf NL hn, List.take_append_eq_append_take,
    List.drop_append_eq_append_drop]

/-- A zero-byte read on a buffer without a newline changes nothing. -/
theorem readSerialStep_timeout_none (st : ReaderState) (hn : NL ∉ st.buff) :
    readSerialStep st [] = (st, none) := by
  by_cases hl : st.buff.length > 0
  · simp [readSerialStep, ReadString, IndexByte_none st.buff NL hn, hl]
  · simp [readSerialStep, hl]

theorem readSerialStep_chunk (st : ReaderState) (data : List Byte) (hd : data ≠ []) :
    readSerialStep st data
      = ({ buff := st.buff ++ data,
           readBytes := wrapInt64 (st.readBytes + (data.length : Int)) }, none) := by
  have : data.length ≠ 0 := fun h => hd (List.eq_nil_of_length_eq_zero h)
  simp [readSerialStep, this]

/-- C6: for every assembly buffer content, a zero-byte read handled by
`readSerial` does the following: if the buffer contains a newline, exactly one
line is sent, namely the buffer prefix up to and including the first newline,
and the buffer becomes the remaining suffix; if the buffer has no newline
(empty or not), nothing is sent and the state is unchanged. -/
theorem C6_timeout_read (st : ReaderState) :
    (∀ pre suf, st.buff = pre ++ NL :: suf → NL ∉ pre →
        readSerialStep st [] = ({ st with buff := suf }, some (pre ++ [NL])))
    ∧ (NL ∈ st.buff → ∃ pre suf, st.buff = pre ++ NL :: suf ∧ NL ∉ pre)
    ∧ (NL ∉ st.buff → readSerialStep st [] = (st, none)) :=
  ⟨fun pre suf hb hn => readSerialStep_timeout_line st pre suf hb hn,
   fun h => exists_first_split st.buff NL h,
   fun hn => readSerialStep_timeout_none st hn⟩

/-- C6, witness: on the buffer `ab\ncd\ne` a zero-byte read sends `ab\n` and
leaves `cd\ne`; on the buffer `ab` it sends nothing and leaves `ab`. -/
theorem C6_timeout_read_witness :
    readSerialStep { buff := goStr "ab\ncd\ne", readBytes := 8 } []
        = ({ buff := goStr "cd\ne", readBytes := 8 }, some (goStr "ab\n"))
    ∧ readSerialStep { buff := goStr "ab", readBytes := 2 } []
        = ({ buff := goStr "ab", readBytes := 2 }, none) :=
  ⟨(C6_timeout_read { buff := goStr "ab\ncd\ne", readBytes := 8 }).1
      (goStr "ab") (goStr "cd\ne") (by decide) (by decide),
   (C6_timeout_read { buff := goStr "ab", readBytes := 2 }).2.2 (by decide)⟩

theorem readSerial_append (st : ReaderState) (r₁ r₂ : List (List Byte)) :
    readSerial st (r₁ ++ r₂)
      = ((readSerial (readSerial st r₁).1 r₂).1,
         (readSerial st r₁).2 ++ (readSerial (readSerial st r₁).1 r₂).2) := by
  induction r₁ generalizing st with
  | nil => simp [readSerial]
  | cons d r₁ ih => simp [readSerial, ih, List.append_assoc]

theorem readSerialStep_inv (st : ReaderState) (data : List Byte) :
    (readSerialStep st data).2.toList.flatten ++ (readSerialStep st data).1.buff = st.buff ++ data
    ∧ ∀ ln ∈ (readSerialStep st data).2.toList, IsLine ln := by
  by_cases hd : data = []
  · subst hd
    by_cases hn : NL ∈ st.buff
    · obtain ⟨pre, suf, hb, hp⟩ := exists_first_split st.buff NL hn
      rw [readSerialStep_timeout_line st pre suf hb hp]
      refine ⟨by simp [hb], ?_⟩
      intro ln hln
      simp only [Option.toList, List.mem_singleton] at hln
      exact ⟨pre, hln, hp⟩
    · rw [readSerialStep_timeout_none st hn]
      simp
  · rw [readSerialStep_chunk st data hd]
    simp

/-- No byte is lost or reordered by the framer, and what it sends are lines. -/
theorem readSerial_inv (reads : List (List Byte)) : ∀ st : ReaderState,
    (readSerial st reads).2.flatten ++ (readSerial st reads).1.buff = st.buff ++ reads.flatten
    ∧ ∀ ln ∈ (readSerial st reads).2, IsLine ln := by
  induction reads with
  | nil => intro st; simp [readSerial]
  | cons d reads ih =>
    intro st
    obtain ⟨h1, h2⟩ := readSerialStep_inv st d
    obtain ⟨h3, h4⟩ := ih (readSerialStep st d).1
    refine ⟨?_, ?_⟩
    · simp only [readSerial, List.flatten_append, List.flatten_cons, List.append_assoc]
      rw [h3, ← List.append_assoc, h1, List.append_assoc]
    · intro ln hln
      simp only [readSerial, List.mem_append] at hln
      rcases hln with h | h
      · exact h2 ln h
      · exact h4 ln h

theorem completeLines_aux_no_NL (s cur : List Byte) (h : NL ∉ s) :
    completeLines.aux s cur = [] := by
  induction s generalizing cur with
  | nil => rfl
  | cons b s ih =>
    have hb : b ≠ NL := fun e => h (e ▸ List.mem_cons_self _ _)
    have hs : NL ∉ s := fun hm => h (List.mem_cons_of_mem _ hm)
    simp [completeLines.aux, hb, ih _ hs]

theorem completeLines_aux_line (pre x cur : List Byte) (h : NL ∉ pre) :
    completeLines.aux (pre ++ NL :: x) cur = (cur ++ pre ++ [NL]) :: completeLines x := by
  induction pre generalizing cur with
  | nil => simp [completeLines.aux, completeLines]
  | cons b pre ih =>
    have hb : b ≠ NL := fun e => h (e ▸ List.mem_cons_self _ _)
    have hs : NL ∉ pre := fun hm => h (List.mem_cons_of_mem _ hm)
    simp [completeLines.aux, hb, ih _ hs]

theorem completeLines_line (ln x : List Byte) (h : IsLine ln) :
    completeLines (ln ++ x) = ln :: completeLines x := by
  obtain ⟨pre, rfl, hp⟩ := h
  have := completeLines_aux_line pre x [] hp
  simpa [completeLines] using this

theorem completeLines_lines (out : List GoString) (x : List Byte) (h : ∀ ln ∈ out, IsLine ln) :
    completeLines (out.flatten ++ x) = out ++ completeLines x := by
  induction out with
  | nil => simp
  | cons ln out ih =>
    have h1 : IsLine ln := h ln (List.mem_cons_self _ _)
    have h2 : ∀ l ∈ out, IsLine l := fun l hl => h l (List.mem_cons_of_mem _ hl)
    rw [List.flatten_cons, List.append_assoc, completeLines_line _ _ h1, ih h2]
    simp

theorem completeLines_aux_length (s cur : List Byte) :
    (completeLines.aux s cur).length = s.count NL := by
  induction s generalizing cur with
  | nil => rfl
  | cons b s ih =>
    by_cases hb : b = NL
    · simp [completeLines.aux, hb, ih]
    · have hne : (b == NL) = false := by simpa using hb
      simp [completeLines.aux, hb, ih, List.count_cons, hne]

theorem completeLines_length (s : List Byte) : (completeLines s).length = s.count NL :=
  completeLines_aux_length s []

/-- Zero-byte reads send the lines of the buffer one at a time. -/
theorem readSerial_timeouts (k : Nat) : ∀ st : ReaderState,
    (readSerial st (timeouts k)).2 = (completeLines st.buff).take k := by
  induction k with
  | zero => intro st; simp [timeouts, readSerial]
  | succ k ih =>
    intro st
    have hrep : timeouts (k + 1) = [] :: timeouts k := by simp [timeouts, List.replicate_succ]
    rw [hrep]
    by_cases hn : NL ∈ st.buff
    · obtain ⟨pre, suf, hb, hp⟩ := exists_first_split st.buff NL hn
      have hcl : completeLines st.buff = (pre ++ [NL]) :: completeLines suf := by
        rw [hb]; simpa [completeLines] using completeLines_aux_line pre suf [] hp
      simp only [readSerial, readSerialStep_timeout_line st pre suf hb hp, hcl]
      rw [ih]
      simp
    · have hcl : completeLines st.buff = [] := completeLines_aux_no_NL _ _ hn
      simp only [readSerial, readSerialStep_timeout_none st hn, hcl]
      rw [ih, hcl]
      simp

/-- After any delivery followed by enough zero-byte reads, the framer has sent
exactly the newline-terminated lines of the stream. -/
theorem readSerial_complete (reads : List (List Byte)) (k : Nat)
    (hk : reads.flatten.count NL ≤ k) :
    (readSerial ReaderState.init (reads ++ timeouts k)).2 = completeLines reads.flatten := by
  obtain ⟨h1, h2⟩ := readSerial_inv reads ReaderState.init
  have hsplit : completeLines reads.flatten
      = (readSerial ReaderState.init reads).2
          ++ completeLines (readSerial ReaderState.init reads).1.buff := by
    rw [← completeLines_lines _ _ h2, h1]
    simp [ReaderState.init]
  have hlen : (completeLines (readSerial ReaderState.init reads).1.buff).length ≤ k := by
    have := congrArg List.length hsplit
    rw [completeLines_length, List.length_append] at this
    omega
  rw [readSerial_append, readSerial_timeouts, List.take_of_length_le hlen]
  exact hsplit.symm

/-- Whatever has been sent so far is an initial part of the lines of the stream. -/
theorem readSerial_sent_initial (reads : List (List Byte)) :
    (readSerial ReaderState.init reads).2 <+: completeLines reads.flatten := by
  obtain ⟨h1, h2⟩ := readSerial_inv reads ReaderState.init
  refine ⟨completeLines (readSerial ReaderState.init reads).1.buff, ?_⟩
  rw [← completeLines_lines _ _ h2, h1]
  simp [ReaderState.init]

/-- A read that delivers bytes sends nothing; a zero-byte read sends at most
one line. -/
theorem readSerialStep_sent_le (st : ReaderState) (data : List Byte) :
    (readSerialStep st data).2.toList.length ≤ (if data = [] then 1 else 0) := by
  by_cases hd : data = []
  · rw [if_pos hd]
    cases (readSerialStep st data).2 <;> simp
  · rw [if_neg hd, readSerialStep_chunk st data hd]
    simp

/-- The lines sent are at most as many as the zero-byte reads made. -/
theorem readSerial_sent_le_timeouts (reads : List (List Byte)) : ∀ st : ReaderState,
    (readSerial st reads).2.length ≤ reads.count [] := by
  induction reads with
  | nil => intro st; simp [readSerial]
  | cons d reads ih =>
    intro st
    have h1 := readSerialStep_sent_le st d
    have h2 := ih (readSerialStep st d).1
    simp only [readSerial, List.length_append]
    by_cases hd : d = []
    · rw [if_pos hd] at h1
      subst hd
      rw [List.count_cons_self]
      omega
    · rw [if_neg hd] at h1
      rw [List.count_cons_of_ne (fun e => hd e.symm)]
      omega

/-- C5 (amended): for every byte stream and every way of delivering it to the
`readSerial` loop as a sequence of chunks with zero-byte timeout reads
interspersed, the lines sent are an initial part of the newline-terminated
lines of the stream, a read that delivers bytes sends nothing and a timeout
read sends at most one line, so the lines sent are at most as many as the
timeout reads made; once the delivery is followed by at least as many timeout
reads as the stream has newlines, the lines sent are exactly the
newline-terminated lines of the stream, the same for every fragmentation and
equal to those of a single full read followed by that many timeout reads. -/
theorem C5_framing_after_enough_timeouts (reads : List (List Byte)) (k : Nat)
    (hk : reads.flatten.count NL ≤ k) :
    (readSerial ReaderState.init reads).2 <+: completeLines reads.flatten
    ∧ (readSerial ReaderState.init (reads ++ timeouts k)).2 = completeLines reads.flatten
    ∧ (readSerial ReaderState.init (reads ++ timeouts k)).2
        = (readSerial ReaderState.init ([reads.flatten] ++ timeouts k)).2
    ∧ (∀ (st : ReaderState) (data : List Byte), data ≠ [] → (readSerialStep st data).2 = none)
    ∧ (∀ st : ReaderState, (readSerialStep st []).2.toList.length ≤ 1)
    ∧ (readSerial ReaderState.init reads).2.length ≤ reads.count []
    ∧ (readSerial ReaderState.init (reads ++ timeouts k)).2.length
        ≤ (reads ++ timeouts k).count [] := by
  refine ⟨readSerial_sent_initial reads, readSerial_complete reads k hk, ?_, ?_, ?_,
    readSerial_sent_le_timeouts reads _, readSerial_sent_le_timeouts _ _⟩
  · rw [readSerial_complete reads k hk,
      readSerial_complete [reads.flatten] k (by simpa using hk)]
    simp
  · intro st data hd
    rw [readSerialStep_chunk st data hd]
  · intro st
    simpa using readSerialStep_sent_le st []

/-- C5, witness: the stream `a\nb\n` delivered as `a`, `\nb`, timeout, `\n`
and followed by two timeout reads gives the lines `a\n`, `b\n`, like the
single full read followed by two timeout reads; before the two closing
timeout reads one line has been sent, for the one timeout read made. -/
theorem C5_framing_after_enough_timeouts_witness :
    (readSerial ReaderState.init
        ([goStr "a", goStr "\nb", [], goStr "\n"] ++ timeouts 2)).2 = [goStr "a\n", goStr "b\n"]
    ∧ (readSerial ReaderState.init ([goStr "a\nb\n"] ++ timeouts 2)).2
        = [goStr "a\n", goStr "b\n"]
    ∧ (readSerial ReaderState.init [goStr "a", goStr "\nb", [], goStr "\n"]).2.length ≤ 1 := by
  have h := C5_framing_after_enough_timeouts [goStr "a", goStr "\nb", [], goStr "\n"] 2
    (by decide)
  refine ⟨?_, ?_, ?_⟩
  · rw [h.2.1]; decide
  · have h3 : (readSerial ReaderState.init ([goStr "a\nb\n"] ++ timeouts 2)).2
        = completeLines ([goStr "a", goStr "\nb", [], goStr "\n"] : List (List Byte)).flatten :=
      h.2.2.1.symm.trans h.2.1
    rw [h3]; decide
  · exact h.2.2.2.2.2.1

/-- C5, counterexample: the stream `a\nb\n` delivered as `a\n`, timeout,
`b\n`, timeout gives the lines `a\n`, `b\n`, while the single full read followed
by a timeout read gives only `a\n`. -/
theorem C5_fragmentation_counterexample :
    ([goStr "a\n", [], goStr "b\n", []] : List (List Byte)).flatten = goStr "a\nb\n"
    ∧ (readSerial ReaderState.init [goStr "a\n", [], goStr "b\n", []]).2
        = [goStr "a\n", goStr "b\n"]
    ∧ (readSerial ReaderState.init [goStr "a\nb\n", []]).2 = [goStr "a\n"]
    ∧ (readSerial ReaderState.init [goStr "a\n", [], goStr "b\n", []]).2
        ≠ (readSerial ReaderState.init [goStr "a\nb\n", []]).2 := by
  refine ⟨by decide, by decide, by decide, by decide⟩

/-! ## The session controller -/

/-- C7, the code at the failing input: after `p` the session is paused with
the port closed; `m` rebuilds the gui and `restartGui` clears `paused` while
the port stays closed; the next `p` (outside input mode) then finds a session
that is not paused and has no port, and changes neither: the running session
does not become paused, and no later `p` opens the port again. -/
theorem C7_p_ignored_after_rebuild :
    (main Unit initFlags ["p"]).paused? = some true
    ∧ (main Unit initFlags ["p"]).serialPort? = some false
    ∧ (main Unit initFlags ["p", "m"]).paused? = some false
    ∧ (main Unit initFlags ["p", "m"]).serialPort? = some false
    ∧ (main Unit initFlags ["p", "m"]).inputMode? = some false
    ∧ (main Unit initFlags ["p", "m", "p"]).paused? = some false
    ∧ (main Unit initFlags ["p", "m", "p"]).serialPort? = some false
    ∧ (main Unit initFlags ["p", "m", "p", "p"]).paused? = some false
    ∧ (main Unit initFlags ["p", "m", "p", "p"]).serialPort? = some false := by
  refine ⟨by decide, by decide, by decide, by decide, by decide, by decide, by decide,
    by decide, by decide⟩

/-- C8, the code at the failing input: `validateFlags` accepts `-mode text`
and leaves `guiMode` as `text`; `NewMainGui` compares it with `TEXT` and `PLOT`
exactly and reaches its `unknown gui mode` panic, so `main` dies in `createGui`
before the event loop. -/
theorem C8_lowercase_mode_panics :
    validateFlags { initFlags with guiMode := "text" } = .ok ()
    ∧ NewMainGui "text" false = .error "panic: unknown gui mode"
    ∧ (startSession Unit { initFlags with guiMode := "text" }).toOption.isNone = true
    ∧ (main Unit { initFlags with guiMode := "text" } []).abort?
        = some "panic: unknown gui mode" := by
  refine ⟨by rfl, by rfl, by decide, by decide⟩

/-- C9, the code at the failing input: `p` pauses the session and closes the
port; Escape outside input mode then leaves the loop and the deferred
`closeSerial` calls `Drain` on the nil handle and panics. From a running
session Escape drains and closes the port. -/
theorem C9_escape_while_paused_panics :
    (main Unit initFlags ["p"]).paused? = some true
    ∧ (main Unit initFlags ["p"]).serialPort? = some false
    ∧ (main Unit initFlags ["p", "<Escape>"]).abort?
        = some "panic: nil pointer dereference in closeSerial"
    ∧ (main Unit initFlags ["p", "<Escape>"]).returnedPort? = none
    ∧ (main Unit initFlags ["<Escape>"]).returnedPort? = some false
    ∧ (main Unit initFlags ["<Escape>"]).returnedDriver?
        = some [.Open, .SetReadTimeout, .Drain, .ResetInputBuffer, .ResetOutputBuffer,
            .Drain, .Close] := by
  refine ⟨by decide, by decide, by decide, by decide, by decide, by decide⟩

/-! ## Conservation of bytes in the line framer -/

theorem wrapInt64_add (a b : Int) : wrapInt64 (wrapInt64 a + b) = wrapInt64 (a + b) := by
  unfold wrapInt64
  omega

theorem wrapInt64_of_range (x : Int) (h0 : 0 ≤ x) (h1 : x < 2 ^ 63) : wrapInt64 x = x := by
  unfold wrapInt64
  omega

theorem readSerialStep_readBytes (st : ReaderState) (data : List Byte) :
    (readSerialStep st data).1.readBytes
      = if data = [] then st.readBytes else wrapInt64 (st.readBytes + (data.length : Int)) := by
  by_cases hd : data = []
  · subst hd
    by_cases hn : NL ∈ st.buff
    · obtain ⟨pre, suf, hb, hp⟩ := exists_first_split st.buff NL hn
      rw [readSerialStep_timeout_line st pre suf hb hp]
      simp
    · rw [readSerialStep_timeout_none st hn]
      simp
  · rw [readSerialStep_chunk st data hd]
    simp [hd]

/-- The counter `readBytes` is the wrapped sum of the lengths of the reads. -/
theorem readSerial_readBytes (reads : List (List Byte)) : ∀ (st : ReaderState) (x : Int),
    st.readBytes = wrapInt64 x →
      (readSerial st reads).1.readBytes = wrapInt64 (x + (reads.flatten.length : Int)) := by
  induction reads with
  | nil => intro st x hx; simpa [readSerial] using hx
  | cons d reads ih =>
    intro st x hx
    have hstep : (readSerialStep st d).1.readBytes = wrapInt64 (x + (d.length : Int)) := by
      rw [readSerialStep_readBytes]
      by_cases hd : d = []
      · simp [hd, hx]
      · simp only [hd, if_false]
        rw [hx, wrapInt64_add]
    have := ih (readSerialStep st d).1 (x + (d.length : Int)) hstep
    simp only [readSerial, List.flatten_cons, List.length_append, Nat.cast_add]
    rw [this, Int.add_assoc]

theorem readSerial_init_readBytes (reads : List (List Byte)) :
    (readSerial ReaderState.init reads).1.readBytes = wrapInt64 (reads.flatten.length : Int) := by
  have := readSerial_readBytes reads ReaderState.init 0 (by decide)
  simpa using this

theorem longRun_length (n : Nat) : (longRun n).flatten.length = 512 * n := by
  induction n with
  | zero => rfl
  | succ n ih =>
    have hrun : longRun (n + 1) = [fullLine, []] ++ longRun n := by
      unfold longRun
      rw [List.replicate_succ, List.flatten_cons]
    have hline : fullLine.length = 512 := by
      unfold fullLine
      rw [List.length_append, List.length_replicate]
      rfl
    have hround : ([fullLine, []] : List (List Byte)).flatten.length = 512 := by
      rw [List.flatten_cons, List.flatten_cons, List.flatten_nil, List.length_append,
        List.length_append, hline]
      rfl
    rw [hrun, List.flatten_append, List.length_append, ih, hround]
    omega

theorem longRun_buff (n : Nat) : ∀ st : ReaderState, st.buff = [] →
    (readSerial st (longRun n)).1.buff = [] := by
  induction n with
  | zero => intro st h; simpa [longRun, readSerial] using h
  | succ n ih =>
    intro st h
    have hrun : longRun (n + 1) = fullLine :: [] :: longRun n := by
      unfold longRun
      rw [List.replicate_succ, List.flatten_cons]
      rfl
    have hne : fullLine ≠ [] := by
      unfold fullLine
      exact List.append_ne_nil_of_right_ne_nil _ (List.cons_ne_nil _ _)
    have hnl : NL ∉ List.replicate 511 (0 : Byte) := by
      intro hm
      exact absurd (List.mem_replicate.mp hm).2 (by decide)
    have hline : readSerialStep (readSerialStep st fullLine).1 []
        = ({ (readSerialStep st fullLine).1 with buff := [] }, some fullLine) := by
      have := readSerialStep_timeout_line (readSerialStep st fullLine).1
        (List.replicate 511 (0 : Byte)) [] (by rw [readSerialStep_chunk st fullLine hne, h]; rfl) hnl
      exact this
    rw [hrun]
    simp only [readSerial]
    rw [hline]
    exact ih _ rfl

/-- C11 (amended): for every sequence of reads (chunks and zero-byte timeouts)
processed by the `readSerial` loop, the concatenation of all lines sent, in
the order sent, followed by the current assembly buffer equals the
concatenation of all bytes read so far, so no byte is lost, duplicated or
reordered; `readBytes`, an `int64`, is the length of that concatenation
wrapped to 64 bits, and equals the length as long as it is below `2^63`. -/
theorem C11_bytes_conserved (reads : List (List Byte)) :
    (readSerial ReaderState.init reads).2.flatten ++ (readSerial ReaderState.init reads).1.buff
        = reads.flatten
    ∧ (readSerial ReaderState.init reads).1.readBytes = wrapInt64 (reads.flatten.length : Int)
    ∧ ((reads.flatten.length : Int) < 2 ^ 63 →
        (readSerial ReaderState.init reads).1.readBytes = (reads.flatten.length : Int)) := by
  refine ⟨?_, readSerial_init_readBytes reads, ?_⟩
  · have := (readSerial_inv reads ReaderState.init).1
    simpa [ReaderState.init] using this
  · intro h
    rw [readSerial_init_readBytes, wrapInt64_of_range _ (Int.natCast_nonneg _) h]

/-- C11, witness: after the reads `a`, `\nb`, timeout, `\n` the line `a\n` has
been sent, `b\n` is in the buffer, and `readBytes` is 4. -/
theorem C11_bytes_conserved_witness :
    (readSerial ReaderState.init [goStr "a", goStr "\nb", [], goStr "\n"]).2 = [goStr "a\n"]
    ∧ (readSerial ReaderState.init [goStr "a", goStr "\nb", [], goStr "\n"]).1.buff = goStr "b\n"
    ∧ (readSerial ReaderState.init [goStr "a", goStr "\nb", [], goStr "\n"]).2.flatten
          ++ (readSerial ReaderState.init [goStr "a", goStr "\nb", [], goStr "\n"]).1.buff
        = goStr "a\nb\n"
    ∧ (readSerial ReaderState.init [goStr "a", goStr "\nb", [], goStr "\n"]).1.readBytes = 4 := by
  have h := C11_bytes_conserved [goStr "a", goStr "\nb", [], goStr "\n"]
  refine ⟨by decide, by decide, ?_, ?_⟩
  · rw [h.1]; decide
  · rw [h.2.2 (by decide)]; decide

/-- C11, counterexample: after `2^54` rounds of a 512-byte read that ends a
line and a zero-byte read that sends it, the assembly buffer is empty, `2^63`
bytes have been read and `readBytes` has wrapped to `-2^63`; it is not the
number of bytes read. -/
theorem C11_readBytes_wrap_counterexample :
    (readSerial ReaderState.init (longRun (2 ^ 54))).1.buff = []
    ∧ ((longRun (2 ^ 54)).flatten.length : Int) = 2 ^ 63
    ∧ (readSerial ReaderState.init (longRun (2 ^ 54))).1.readBytes = -2 ^ 63
    ∧ (readSerial ReaderState.init (longRun (2 ^ 54))).1.readBytes
        ≠ ((longRun (2 ^ 54)).flatten.length : Int) := by
  have hlen : ((longRun (2 ^ 54)).flatten.length : Int) = 2 ^ 63 := by
    rw [longRun_length]; norm_num
  have hrb : (readSerial ReaderState.init (longRun (2 ^ 54))).1.readBytes = -2 ^ 63 := by
    rw [readSerial_init_readBytes, hlen]
    norm_num [wrapInt64]
  refine ⟨longRun_buff _ ReaderState.init rfl, hlen, hrb, ?_⟩
  rw [hrb, hlen]
  norm_num

end SerialMonitor
